import Mathlib

/-!
Verification development for the BinusBrain study-assistant pipeline.

The Python sources under `src/` are shallowly embedded here:

* strings are embedded as `List Char` (ASCII fragment; the case predicates
  `Char.isUpper`/`Char.isLower` model Python's `str` case classification on
  the ASCII letters that the repository's inputs use);
* Python exceptions are embedded with `Option`/`Except`: a function that can
  raise returns `none`/`.error e`;
* external collaborators (the completion service, the embedding model, the
  graph store) are passed in as explicit function parameters, and store
  writes are recorded in an explicit operation log.
-/

/-- Shorthand for embedded Python strings. -/
abbrev PyStr := List Char

/-- The ASCII whitespace characters stripped by Python's `str.strip()`. -/
def pyWsChar (c : Char) : Bool :=
  c = ' ' || c = '\t' || c = '\n' || c = '\r' || c = Char.ofNat 11 || c = Char.ofNat 12

/-- Python `s.strip()`: remove whitespace from both ends. -/
def pyStrip (s : PyStr) : PyStr :=
  ((s.dropWhile pyWsChar).reverse.dropWhile pyWsChar).reverse

/-- Python `s.lower()` on the ASCII fragment. -/
def pyLower (s : PyStr) : PyStr := s.map Char.toLower

/-- Python `text.split('\n')` (keeps empty pieces). -/
def splitNl : PyStr → List PyStr
  | [] => [[]]
  | c :: rest =>
    match splitNl rest with
    | [] => [[]]
    | l :: ls => if c = '\n' then [] :: l :: ls else (c :: l) :: ls

/-- A Python character is "cased" (ASCII fragment). -/
def pyCased (c : Char) : Bool := c.isUpper || c.isLower

/-- Python `s.isupper()`: at least one cased character, and no lowercase one. -/
def pyIsUpper (s : PyStr) : Bool :=
  s.any pyCased && s.all (fun c => !c.isLower)

/-- Worker for `pyIsTitle`: `prev` records whether the previous character was
cased, `seen` whether a cased character has been seen. -/
def pyIsTitleAux : List Char → Bool → Bool → Bool
  | [], _, seen => seen
  | c :: rest, prev, seen =>
    if c.isUpper then
      if prev then false else pyIsTitleAux rest true true
    else if c.isLower then
      if prev then pyIsTitleAux rest true true else false
    else pyIsTitleAux rest false seen

/-- Python `s.istitle()`: uppercase letters only follow uncased characters,
lowercase letters only follow cased ones, and at least one cased character. -/
def pyIsTitle (s : PyStr) : Bool := pyIsTitleAux s false false

/-- Consume the `(\.\d+)*` groups of the heading regex. -/
def dotDigitGroups (s : PyStr) : PyStr :=
  match s with
  | '.' :: c :: rest =>
    if c.isDigit then dotDigitGroups (rest.dropWhile Char.isDigit)
    else s
  | _ => s
termination_by s.length
decreasing_by
  simp only [List.length_cons]
  have := (List.dropWhile_sublist (l := rest) (p := Char.isDigit)).length_le
  omega

/-- `re.match(r'^\d+(\.\d+)*\s+', s)` from `semantic_chunker.py`:
one or more digits, then dot-digit groups, then at least one whitespace. -/
def matchNumDotted (s : PyStr) : Bool :=
  let digits := s.takeWhile Char.isDigit
  if digits = [] then false
  else
    match dotDigitGroups (s.dropWhile Char.isDigit) with
    | c :: _ => pyWsChar c
    | [] => false

/-- Python `s.endswith('.')`. -/
def endsWithDot (s : PyStr) : Bool := s.getLast? = some '.'

/-- `is_heading` from `src/chunking/semantic_chunker.py`. -/
def is_heading (line : PyStr) : Bool :=
  let l := pyStrip line
  if l = [] then false
  else if 80 < l.length then false
  else if pyIsUpper l then true
  else if matchNumDotted l then true
  else if pyIsTitle l && !endsWithDot l then true
  else false

/-- Is `c` one of the sentence terminators `.!?`. -/
def isSentEnd (c : Char) : Bool := c = '.' || c = '!' || c = '?'

/-- Worker for `scanBackSent`: with `k` iterations left, the current index
is `stop + k` (the Python loop `range(start, stop, -1)` visits
`start, start - 1, ..., stop + 1`, i.e. `start - stop` indices). -/
def scanBackSentAux (text : PyStr) (stop : Nat) : Nat → Option (Option Nat)
  | 0 => some none
  | k + 1 =>
    match text[stop + k + 1]? with
    | none => none
    | some c =>
      if isSentEnd c then some (some (stop + k + 1)) else scanBackSentAux text stop k

/-- The backward scan `for i in range(start, stop, -1): if text[i] in '.!?'`
of `break_at_sentence_boundary`.  Returns `none` on an `IndexError`
(indexing at or past the end of `text`), `some (some i)` when a terminator
is found at index `i`, `some none` when the scan is exhausted. -/
def scanBackSent (text : PyStr) (start stop : Nat) : Option (Option Nat) :=
  scanBackSentAux text stop (start - stop)

/-- Worker for `scanBackSpace`, indexed like `scanBackSentAux`. -/
def scanBackSpaceAux (text : PyStr) (stop : Nat) : Nat → Option (Option Nat)
  | 0 => some none
  | k + 1 =>
    match text[stop + k + 1]? with
    | none => none
    | some c =>
      if c = ' ' then some (some (stop + k + 1)) else scanBackSpaceAux text stop k

/-- The backward scan `for i in range(max_len, max(0, max_len - 100), -1):
if text[i] == ' '` of `break_at_sentence_boundary`. -/
def scanBackSpace (text : PyStr) (start stop : Nat) : Option (Option Nat) :=
  scanBackSpaceAux text stop (start - stop)

/-- `break_at_sentence_boundary` from `src/chunking/semantic_chunker.py`.
`none` models the `IndexError` the Python code raises when the first scanned
index `min(max_len + 200, len(text))` equals `len(text)`. -/
def break_at_sentence_boundary (text : PyStr) (maxLen : Nat) : Option (PyStr × PyStr) :=
  if text.length ≤ maxLen then some (text, [])
  else
    match scanBackSent text (min (maxLen + 200) text.length) (maxLen - 200) with
    | none => none
    | some (some i) => some (pyStrip (text.take (i + 1)), pyStrip (text.drop (i + 1)))
    | some none =>
      match scanBackSpace text maxLen (maxLen - 100) with
      | none => none
      | some (some i) => some (pyStrip (text.take i), pyStrip (text.drop i))
      | some none => some (pyStrip (text.take maxLen), pyStrip (text.drop maxLen))

/-- Python index arithmetic for a slice bound: a negative bound counts from
the end and is clamped at `0`. -/
def pySliceIdx (len : Nat) (i : Int) : Nat :=
  if i < 0 then ((len : Int) + i).toNat else i.toNat

/-- Python `s[:i]` with a possibly negative `i`. -/
def pySliceTo (s : PyStr) (i : Int) : PyStr := s.take (pySliceIdx s.length i)

/-- Python `s[i:]` with a possibly negative `i`. -/
def pySliceFrom (s : PyStr) (i : Int) : PyStr := s.drop (pySliceIdx s.length i)

/-- Python `s[i]` with Python's negative-index semantics; `none` models
`IndexError`. -/
def pyGetI (s : PyStr) (i : Int) : Option Char :=
  if 0 ≤ i then s[i.toNat]?
  else if 0 ≤ (s.length : Int) + i then s[((s.length : Int) + i).toNat]?
  else none

/-- Worker for `softScan`: with `k + 1` iterations left before the
exclusive bound `stopEx`, the current index is `stopEx - (k + 1)`. -/
def softScanAux (cc : PyStr) (stopEx : Int) : Nat → Option (Option Int)
  | 0 => some none
  | k + 1 =>
    match pyGetI cc (stopEx - (k + 1 : Nat)) with
    | none => none
    | some c =>
      if isSentEnd c then some (some (stopEx - (k + 1 : Nat) + 1))
      else softScanAux cc stopEx k

/-- The forward scan `for i in range(len(cc) - 100, len(cc)): if cc[i] in
'.!?'` from the soft-buffer branch of `semantic_chunk` (the Python range
visits `stopEx - i` indices upward from `i`).  The lower range bound may be
negative, in which case Python indexes from the end of the string (and
raises `IndexError`, modelled `none`, when the index is below `-len`). -/
def softScan (cc : PyStr) (i stopEx : Int) : Option (Option Int) :=
  softScanAux cc stopEx (stopEx - i).toNat

/-- Loop state of `semantic_chunk`: emitted chunks, the accumulating chunk,
the active heading and the pending overflow fragment. -/
structure CState where
  chunks : List PyStr
  cc : PyStr
  heading : PyStr
  pending : PyStr

/-- `line = pending_line + " " + line` when a pending overflow fragment
exists (lines 72-74 of `semantic_chunker.py`). -/
def mergePending (pending line : PyStr) : PyStr :=
  if pending ≠ [] then pending ++ [' '] ++ line else line

/-- Lines 77-82 of `semantic_chunker.py`: if appending the line would
exceed the budget and the accumulating chunk is non-empty, flush it and
re-seed from the active heading.  Returns the updated `(chunks, cc)`. -/
def flushIfOver (maxChars : Nat) (st : CState) (line : PyStr) : List PyStr × PyStr :=
  if maxChars < (st.cc ++ line ++ [' ']).length ∧ st.cc ≠ [] then
    (st.chunks ++ [pyStrip st.cc], st.heading ++ ['\n'])
  else (st.chunks, st.cc)

/-- Lines 84-100 of `semantic_chunker.py`: a line longer than the budget is
broken (both branches differ only in the budget passed to
`break_at_sentence_boundary`), the first part flushed with the accumulating
chunk, and the remainder parked as the pending overflow. -/
def longLineStep (maxChars : Nat) (heading : PyStr) (chunks : List PyStr)
    (cc line : PyStr) : Option CState :=
  let breakPoint : Int := (maxChars : Int) - cc.length - 100
  let budget : Nat := if 0 < breakPoint then breakPoint.toNat else maxChars
  match break_at_sentence_boundary line budget with
  | none => none
  | some (first, rem) =>
    some { chunks := chunks ++ [pyStrip (cc ++ first ++ [' '])],
           cc := heading ++ ['\n'], heading := heading, pending := rem }

/-- Lines 101-118 of `semantic_chunker.py`: the normal append (`cc2` is
the chunk with the line already appended) followed by the soft-buffer
break: once within 500 characters of the budget, scan the last 100
characters for a terminator and flush there. -/
def softStep (maxChars : Nat) (heading : PyStr) (chunks : List PyStr)
    (cc2 : PyStr) : Option CState :=
  if maxChars - 500 ≤ cc2.length then
    match softScan cc2 ((cc2.length : Int) - 100) (cc2.length : Int) with
    | none => none
    | some (some bp) =>
      if bp < (cc2.length : Int) then
        let head := heading ++ ['\n'] ++ pyStrip (pySliceFrom cc2 bp)
        let head := if ¬ pyStrip head = heading then head ++ [' '] else head
        some { chunks := chunks ++ [pyStrip (pySliceTo cc2 bp)],
               cc := head, heading := heading, pending := [] }
      else
        some { chunks := chunks, cc := cc2, heading := heading, pending := [] }
    | some none =>
      some { chunks := chunks, cc := cc2, heading := heading, pending := [] }
  else
    some { chunks := chunks, cc := cc2, heading := heading, pending := [] }

/-- One iteration of the `for line in lines` loop of `semantic_chunk`
(`src/chunking/semantic_chunker.py`).  `none` models a raised `IndexError`. -/
def procLine (maxChars : Nat) (st : CState) (rawLine : PyStr) : Option CState :=
  let line := pyStrip rawLine
  if line = [] then some st
  else if is_heading line then
    some { chunks := st.chunks ++ (if st.cc ≠ [] then [pyStrip st.cc] else []),
           cc := line ++ ['\n'], heading := line, pending := [] }
  else
    let line := mergePending st.pending line
    let fl := flushIfOver maxChars st line
    if maxChars < line.length then
      longLineStep maxChars st.heading fl.1 fl.2 line
    else
      softStep maxChars st.heading fl.1 (fl.2 ++ line ++ [' '])

/-- `semantic_chunk` from `src/chunking/semantic_chunker.py`.  Returns
`none` when the Python code would raise `IndexError`. -/
def semantic_chunk (text : PyStr) (maxChars : Nat) : Option (List PyStr) := do
  let st ← (splitNl text).foldlM (procLine maxChars) ⟨[], [], [], []⟩
  let base := st.chunks ++ (if pyStrip st.cc ≠ [] then [pyStrip st.cc] else [])
  let withPending :=
    base ++ (if st.pending ≠ [] then [pyStrip (st.heading ++ [' '] ++ st.pending)] else [])
  return withPending.filter (fun c => pyStrip c ≠ [])

/-! ## Knowledge-graph extractor (`src/kg_extractor.py`) -/

/-- A sanitized entity `{name, type}`. -/
structure Entity where
  name : PyStr
  ty : PyStr
deriving DecidableEq, Repr

/-- A sanitized relationship `{from, to, type}`. -/
structure RelEdge where
  frm : PyStr
  toE : PyStr
  ty : PyStr
deriving DecidableEq, Repr

/-- An entity candidate from the parsed completion JSON: either not a JSON
mapping at all, or a mapping whose `name`/`type` fields may be absent
(`r.get(key, default)` in Python). -/
inductive EntItem where
  | notMapping
  | mapping (name ty : Option PyStr)
deriving DecidableEq, Repr

/-- A relationship candidate from the parsed completion JSON. -/
inductive RelItem where
  | notMapping
  | mapping (frm toE ty : Option PyStr)
deriving DecidableEq, Repr

/-- Allowed entity types of `KnowledgeGraphExtractor._clean_entities`. -/
def allowedEntityTypes : List PyStr :=
  ["concept".data, "framework".data, "definition".data, "learning_objective".data,
   "organization".data, "example".data, "process".data, "step".data]

/-- Allowed relationship types of `KnowledgeGraphExtractor._clean_relationships`. -/
def allowedRelTypes : List PyStr :=
  ["defines".data, "has_component".data, "has_step".data, "part_of".data,
   "example_of".data, "used_in".data, "supports".data, "objective_of".data,
   "cause_of".data]

/-- The loop of `KnowledgeGraphExtractor._clean_entities`; `seen` is the set
of already-emitted names. -/
def clean_entities_aux (seen : List PyStr) : List EntItem → List Entity
  | [] => []
  | .notMapping :: rest => clean_entities_aux seen rest
  | .mapping nameF tyF :: rest =>
    let name := pyStrip (nameF.getD [])
    let etype := pyStrip (pyLower (tyF.getD ("concept".data)))
    if name = [] ∨ name ∈ seen then clean_entities_aux seen rest
    else
      let etype := if etype ∈ allowedEntityTypes then etype else "concept".data
      ⟨name, etype⟩ :: clean_entities_aux (name :: seen) rest

/-- `KnowledgeGraphExtractor._clean_entities`. -/
def clean_entities (es : List EntItem) : List Entity := clean_entities_aux [] es

/-- The deduplication key `f"{frm}|{rtype}|{to}"`. -/
def relKey (frm rty toE : PyStr) : PyStr := frm ++ "|".data ++ rty ++ "|".data ++ toE

/-- The loop of `KnowledgeGraphExtractor._clean_relationships`; `seen` is the
set of already-emitted `(from, type, to)` keys. -/
def clean_relationships_aux (seen : List PyStr) : List RelItem → List RelEdge
  | [] => []
  | .notMapping :: rest => clean_relationships_aux seen rest
  | .mapping frmF toF tyF :: rest =>
    let frm := pyStrip (frmF.getD [])
    let toE := pyStrip (toF.getD [])
    let rty := pyStrip (pyLower (tyF.getD ("part_of".data)))
    if frm = [] ∨ toE = [] ∨ frm = toE then clean_relationships_aux seen rest
    else if rty ∉ allowedRelTypes then clean_relationships_aux seen rest
    else
      let key := relKey frm rty toE
      if key ∈ seen then clean_relationships_aux seen rest
      else ⟨frm, toE, rty⟩ :: clean_relationships_aux (key :: seen) rest

/-- `KnowledgeGraphExtractor._clean_relationships`. -/
def clean_relationships (rs : List RelItem) : List RelEdge := clean_relationships_aux [] rs

/-- Per-item sanitization rule of `_clean_relationships`, written as the spec
describes it (strip `from`/`to`, lowercase and strip `type`, drop empty/self
loops and disallowed types): used to compare the loop with its
filter-and-deduplicate reading. -/
def sanitizeRel : RelItem → Option RelEdge
  | .notMapping => none
  | .mapping frmF toF tyF =>
    let frm := pyStrip (frmF.getD [])
    let toE := pyStrip (toF.getD [])
    let rty := pyStrip (pyLower (tyF.getD ("part_of".data)))
    if frm = [] ∨ toE = [] ∨ frm = toE then none
    else if rty ∉ allowedRelTypes then none
    else some ⟨frm, toE, rty⟩

/-- Keep the first occurrence of every concatenated `from|type|to` key
string — the dedup key the source builds with `f"{frm}|{rtype}|{to}"`.
This is coarser than equality of `(from, type, to)` triples: distinct
triples whose names contain a pipe can share a key (for example
`("a|part_of", "part_of", "b")` and `("a", "part_of", "part_of|b")`), and
the later one is then dropped. -/
def dedupByKey (seen : List PyStr) : List RelEdge → List RelEdge
  | [] => []
  | r :: rest =>
    if relKey r.frm r.ty r.toE ∈ seen then dedupByKey seen rest
    else r :: dedupByKey (relKey r.frm r.ty r.toE :: seen) rest

/-- The sanitizer restated as validate-then-deduplicate: validate each item
with `sanitizeRel`, then collapse items sharing the same concatenated
`from|type|to` key string to the first occurrence.  (Deduplication by the
key string, not by the triple: see `dedupByKey` for the difference.) -/
def clean_relationships_spec (rs : List RelItem) : List RelEdge :=
  dedupByKey [] (rs.filterMap sanitizeRel)

/-- Embedded Python exceptions that the claims mention. -/
inductive PyExc where
  | nameError
  | keyError (key : PyStr)
deriving DecidableEq, Repr

/-- The backtick character (written by code so that it never appears as a
token in this file). -/
def fenceChar : Char := Char.ofNat 96

/-- The literal pattern of the first fence regex: three backticks then
`json`. -/
def fencePat1 : PyStr := [fenceChar, fenceChar, fenceChar, 'j', 's', 'o', 'n']

/-- Three backticks. -/
def fencePat2 : PyStr := [fenceChar, fenceChar, fenceChar]

/-- Left-to-right global substitution modelling the first
`re.sub` of `_clean_json_response` (the fence-plus-`json` pattern followed
by greedy whitespace, replaced by the empty string). -/
def stripFencePat1 : PyStr → PyStr
  | [] => []
  | c :: rest =>
    if (c :: rest).take 7 = fencePat1 then
      stripFencePat1 (((c :: rest).drop 7).dropWhile pyWsChar)
    else c :: stripFencePat1 rest
termination_by s => s.length
decreasing_by
  · have := (List.dropWhile_sublist (l := (c :: rest).drop 7) (p := pyWsChar)).length_le
    simp only [List.length_drop, List.length_cons] at *
    omega
  · simp

/-- Left-to-right global substitution modelling the second `re.sub` of
`_clean_json_response` (greedy whitespace followed by three backticks,
replaced by the empty string; the greedy run can only match in full, since
any shorter whitespace prefix is followed by another whitespace character
rather than a backtick). -/
def stripFencePat2 : PyStr → PyStr
  | [] => []
  | c :: rest =>
    let after := (c :: rest).dropWhile pyWsChar
    if after.take 3 = fencePat2 then stripFencePat2 (after.drop 3)
    else c :: stripFencePat2 rest
termination_by s => s.length
decreasing_by
  · have h1 := (List.dropWhile_sublist (l := c :: rest) (p := pyWsChar)).length_le
    have h3 : 3 ≤ ((c :: rest).dropWhile pyWsChar).length := by
      have := congrArg List.length (by assumption : ((c :: rest).dropWhile pyWsChar).take 3 = fencePat2)
      simp only [List.length_take, fencePat2, List.length_cons, List.length_nil] at this
      omega
    simp only [List.length_drop, List.length_cons] at *
    omega
  · simp

/-- `KnowledgeGraphExtractor._clean_json_response`: strip the markdown code
fences, then slice from the first `{` to the last `}`. -/
def clean_json_response (content : PyStr) : PyStr :=
  let fencedRemoved := stripFencePat2 (stripFencePat1 content)
  match fencedRemoved.findIdx? (fun c => c = Char.ofNat 123),
        (fencedRemoved.reverse.findIdx? (fun c => c = Char.ofNat 125)) with
  | some start, some revEnd =>
    let endIdx := fencedRemoved.length - 1 - revEnd
    (fencedRemoved.take (endIdx + 1)).drop start
  | _, _ => fencedRemoved

/-- `KnowledgeGraphExtractor.extract_entities_relationships`.

The completion call and the JSON parse are external collaborators:
`invokeRes` is the outcome of `self.llm.invoke(...)` (`.error` = the call
raised), and `loads` abstracts `json.loads` plus the `data.get` accesses
(`none` = any exception after the completion call returned).

The `.error` branch models the `except` handler faithfully: it prints the
exception, then evaluates `response.content` — but `response` was never
bound when `invoke` itself raised, so the handler raises `NameError`. -/
def extract_entities_relationships
    (loads : PyStr → Option (List EntItem × List RelItem))
    (invokeRes : Except PyStr PyStr) :
    Except PyExc (List Entity × List RelEdge) :=
  match invokeRes with
  | .error _ => .error .nameError
  | .ok content =>
    match loads (clean_json_response (pyStrip content)) with
    | some (es, rs) => .ok (clean_entities es, clean_relationships rs)
    | none => .ok ([], [])

/-- Aggregated counters returned by `process_text_chunks`. -/
structure IngestResult where
  processed_chunks : Nat
  total_entities : Nat
  total_relationships : Nat
  success : Bool
deriving DecidableEq, Repr

/-- A write issued to the graph store collaborator. -/
inductive StoreOp where
  | createUser (uid : PyStr)
  | createEntities (es : List Entity) (uid : PyStr)
  | createRelationships (rs : List RelEdge) (uid : PyStr)
deriving DecidableEq, Repr

/-- The chunk loop of `KnowledgeGraphExtractor.process_text_chunks`:
blank chunks are skipped; a chunk whose extraction yields some entities or
relationships is written to the store and counted. `extractF` abstracts
`extract_entities_relationships` on a chunk. -/
def process_chunks_loop (extractF : PyStr → List Entity × List RelEdge) (uid : PyStr) :
    List PyStr → Nat → Nat → Nat → IngestResult × List StoreOp
  | [], te, tr, p => (⟨p, te, tr, true⟩, [])
  | c :: rest, te, tr, p =>
    if pyStrip c = [] then process_chunks_loop extractF uid rest te tr p
    else
      let er := extractF c
      if er.1 ≠ [] ∨ er.2 ≠ [] then
        let res := process_chunks_loop extractF uid rest (te + er.1.length)
          (tr + er.2.length) (p + 1)
        (res.1, .createEntities er.1 uid :: .createRelationships er.2 uid :: res.2)
      else process_chunks_loop extractF uid rest te tr p

/-- `KnowledgeGraphExtractor.process_text_chunks`, with the store writes
returned as an explicit operation log. -/
def process_text_chunks (extractF : PyStr → List Entity × List RelEdge)
    (chunks : List PyStr) (uid : PyStr) : IngestResult × List StoreOp :=
  let res := process_chunks_loop extractF uid chunks 0 0 0
  (res.1, .createUser uid :: res.2)

/-! ## Query engine (`src/query_engine.py`) -/

/-- A `{chunk, similarity}` vector-search result.  Similarities are embedded
as rationals: floating-point cosine values enter the selection logic only
through comparisons, which the claims state order-theoretically. -/
structure VecResult where
  chunk : PyStr
  similarity : ℚ
deriving DecidableEq, Repr

/-- `QueryEngine.vector_search`, lines 60-107 of `src/query_engine.py`.

`chunks` are the user's stored chunk texts fetched from the store and
`sims` the cosine similarities of the query embedding against each chunk
embedding (both produced by external collaborators).  The selection logic is
the source's: `np.argsort(similarities)` ascending, reversed, truncated to
`top_k`, then filtered by `similarity > 0.1`. -/
def vector_search (chunks : List PyStr) (sims : List ℚ) (topK : Nat) : List VecResult :=
  if chunks = [] then []
  else
    let order := List.insertionSort (fun i j => sims.getD i 0 ≤ sims.getD j 0)
      (List.range sims.length)
    let top := order.reverse.take topK
    (top.filter (fun i => (1 : ℚ)/10 < sims.getD i 0)).map
      (fun i => ⟨chunks.getD i [], sims.getD i 0⟩)

/-- A one-hop `GraphContext` as returned by `QueryEngine.get_graph_context`. -/
structure GraphContext where
  entities : List Entity
  relationships : List RelEdge
deriving DecidableEq, Repr

/-- The named sections assembled by `build_structured_context`
(`src/agent/agent_structurer.py`). -/
structure StructuredContext where
  concepts : List PyStr
  relationships : List PyStr
  documents : List PyStr
deriving DecidableEq, Repr

/-- `build_structured_context` from `src/agent/agent_structurer.py`:
concept names, rendered relationship strings, and vector-result texts
truncated to 500 characters. -/
def build_structured_context (gc : GraphContext) (vrs : List VecResult) :
    StructuredContext :=
  { concepts := gc.entities.map (·.name),
    relationships := gc.relationships.map
      (fun r => r.frm ++ [' '] ++ r.ty ++ [' '] ++ r.toE),
    documents := vrs.map (fun v => v.chunk.take 500) }

/-- The externally observable calls made by `QueryEngine.generate_answer`. -/
inductive QCall where
  | llmConceptCall
  | graphReadCall
  | vectorSearchCall
  | llmAnswerCall
deriving DecidableEq, Repr

/-- The `{answer, success}` result of `QueryEngine.generate_answer`. -/
structure QueryResult where
  answer : PyStr
  success : Bool
deriving DecidableEq, Repr

/-- `QueryEngine.generate_answer`, lines 151-175 of `src/query_engine.py`,
with its collaborators passed in and the calls it issues recorded in order:

* `extractConcept` — the dedicated concept-extraction completion call;
* `graphCtxOf` — `get_graph_context` (a store read);
* `vectorSearchOf` — `vector_search` (store read plus embedding calls);
* `synthAnswer` — the answer prompt assembled by
  `generate_answer`-the-prompt-builder followed by `llm.invoke`, abstracted
  as one completion collaborator, since the claims only concern whether the
  call is made.

The embedded early-exit is the source's: when the resolved graph context
has no entities, the fixed not-found answer is returned with
`success = False` before the vector search or the synthesis call happens. -/
def query_generate_answer
    (extractConcept : PyStr → PyStr)
    (graphCtxOf : PyStr → GraphContext)
    (vectorSearchOf : PyStr → List VecResult)
    (synthAnswer : PyStr → StructuredContext → PyStr)
    (question : PyStr) : QueryResult × List QCall :=
  let concept := extractConcept question
  let gc := graphCtxOf concept
  if gc.entities = [] then
    (⟨"I could not find this topic in your uploaded materials.".data, false⟩,
     [.llmConceptCall, .graphReadCall])
  else
    let vrs := vectorSearchOf concept
    let structured := build_structured_context gc vrs
    (⟨synthAnswer question structured, true⟩,
     [.llmConceptCall, .graphReadCall, .vectorSearchCall, .llmAnswerCall])

/-! ## Workflow controller (`src/agent_runner.py`) -/

/-- The LangGraph `AgentState` dict.  `none` models a key that is absent
(or `None`): reading it with `state[key]` raises `KeyError` in the graph's
node functions.  The `messages` conversation log is omitted: no node of
`agent_runner.py` reads it and no claim concerns it. -/
structure AgentState where
  action : Option PyStr
  user_id : PyStr
  file_data : Option PyStr
  filename : Option PyStr
  extracted_text : Option PyStr
  file_type : Option PyStr
  processing_result : Option IngestResult
  question : Option PyStr
  query_result : Option QueryResult
  graph_data : Option (List Entity × List RelEdge)
  errorMsg : Option PyStr
  success : Bool
deriving DecidableEq, Repr

/-- `BinusBrainWorkflow._route_action`: route to `error` when an error flag
is already set (Python truthiness: a non-empty string), else dispatch on
`action`, defaulting to `error`. -/
def route_action (st : AgentState) : PyStr :=
  if st.errorMsg.getD [] ≠ [] then "error".data
  else st.action.getD ("error".data)

/-- `BinusBrainWorkflow._upload`: run the external text extraction
(`upload_handler.process_upload`, passed in as `processUpload`); an empty
result sets the error message, a non-empty one stores the text and type. -/
def upload_node (processUpload : PyStr → PyStr → PyStr → PyStr × PyStr)
    (st : AgentState) : Except PyExc AgentState :=
  match st.file_data, st.filename with
  | some fd, some fn =>
    let res := processUpload fd fn st.user_id
    if res.1 = [] then .ok { st with errorMsg := some ("Text extraction failed".data) }
    else .ok { st with extracted_text := some res.1, file_type := some res.2 }
  | _, _ => .error (.keyError ("file_data".data))

/-- `BinusBrainWorkflow._extract`: reads `state["extracted_text"]` — a
`KeyError` when the upload step never produced it — and runs the ingestion
pipeline (`kg_extractor.extract_from_single_text`, passed in as `ingest`). -/
def extract_node (ingest : PyStr → PyStr → IngestResult) (st : AgentState) :
    Except PyExc AgentState :=
  match st.extracted_text with
  | none => .error (.keyError ("extracted_text".data))
  | some t =>
    .ok { st with processing_result := some (ingest t st.user_id), success := true }

/-- `BinusBrainWorkflow._query`. -/
def query_node (queryOf : PyStr → PyStr → QueryResult) (st : AgentState) :
    Except PyExc AgentState :=
  match st.question with
  | none => .error (.keyError ("question".data))
  | some q => .ok { st with query_result := some (queryOf q st.user_id), success := true }

/-- `BinusBrainWorkflow._error`. -/
def error_node (st : AgentState) : AgentState := { st with success := false }

/-- The compiled workflow of `BinusBrainWorkflow._build_workflow`:
`route` (a pass-through), the conditional dispatch of `_route_action`, the
unconditional `upload -> extract` edge, and `query`/`visualize`/`error`
going straight to `END`.  `vizOf` abstracts the
`neo4j_client.get_user_graph_data` store read of `_visualize`. -/
def run_workflow
    (processUpload : PyStr → PyStr → PyStr → PyStr × PyStr)
    (ingest : PyStr → PyStr → IngestResult)
    (queryOf : PyStr → PyStr → QueryResult)
    (vizOf : PyStr → List Entity × List RelEdge)
    (st : AgentState) : Except PyExc AgentState :=
  let act := route_action st
  if act = "upload".data then
    match upload_node processUpload st with
    | .error e => .error e
    | .ok st1 => extract_node ingest st1
  else if act = "query".data then query_node queryOf st
  else if act = "visualize".data then
    .ok { st with graph_data := some (vizOf st.user_id), success := true }
  else if act = "error".data then .ok (error_node st)
  else .error (.keyError act)

/-! ## Heading classification (claim C6) -/

/-- Claim C6: `is_heading` returns `true` exactly when the stripped line is
non-empty, at most 80 characters long, and is entirely upper-case (Python
`str.isupper`), or starts with a numeric-dotted prefix followed by
whitespace, or is title-case (Python `str.istitle`) and does not end in a
period. -/
theorem claim_C6_heading_iff (line : PyStr) :
    is_heading line = true ↔
      (pyStrip line ≠ [] ∧ (pyStrip line).length ≤ 80 ∧
        (pyIsUpper (pyStrip line) = true ∨ matchNumDotted (pyStrip line) = true ∨
          (pyIsTitle (pyStrip line) = true ∧ endsWithDot (pyStrip line) = false))) := by
  unfold is_heading
  by_cases h1 : pyStrip line = []
  · simp [h1]
  · by_cases h2 : 80 < (pyStrip line).length
    · simp only [if_neg h1, if_pos h2]
      constructor
      · intro h; exact absurd h (by simp)
      · intro h; omega
    · by_cases h3 : pyIsUpper (pyStrip line) = true
      · simp [h1, h2, h3]; omega
      · by_cases h4 : matchNumDotted (pyStrip line) = true
        · simp [h1, h2, h3, h4]; omega
        · by_cases h5 : pyIsTitle (pyStrip line) = true
          · by_cases h6 : endsWithDot (pyStrip line) = true
            · simp [h1, h2, h3, h4, h5, h6]
            · simp only [Bool.not_eq_true] at h6
              simp [h1, h2, h3, h4, h5, h6]; omega
          · simp only [Bool.not_eq_true] at h5
            simp [h1, h2, h3, h4, h5]

/-! ## Relationship sanitization (claims C8 and C10) -/

/-- Unfolding `dedupByKey` at an already-seen key. -/
theorem dedupByKey_cons_mem (seen : List PyStr) (r : RelEdge) (rest : List RelEdge)
    (h : relKey r.frm r.ty r.toE ∈ seen) :
    dedupByKey seen (r :: rest) = dedupByKey seen rest := by
  simp [dedupByKey, h]

/-- Unfolding `dedupByKey` at a fresh key. -/
theorem dedupByKey_cons_not_mem (seen : List PyStr) (r : RelEdge) (rest : List RelEdge)
    (h : relKey r.frm r.ty r.toE ∉ seen) :
    dedupByKey seen (r :: rest) = r :: dedupByKey (relKey r.frm r.ty r.toE :: seen) rest := by
  simp [dedupByKey, h]

/-- The sanitizer loop equals "validate each item, then keep the first
occurrence of each `(from, type, to)` key". -/
theorem clean_relationships_aux_eq (rs : List RelItem) : ∀ seen,
    clean_relationships_aux seen rs = dedupByKey seen (rs.filterMap sanitizeRel) := by
  induction rs with
  | nil => intro seen; rfl
  | cons r rest ih =>
    intro seen
    cases r with
    | notMapping =>
      simp only [clean_relationships_aux, List.filterMap_cons, sanitizeRel, ih]
    | mapping frmF toF tyF =>
      simp only [clean_relationships_aux, List.filterMap_cons, sanitizeRel]
      split_ifs with hvalid htype hseen
      · simp [ih]
      · rw [ih]
        exact (dedupByKey_cons_mem seen _ _ hseen).symm
      · rw [ih, dedupByKey_cons_not_mem seen _ _ hseen]
      · simp [ih]

/-- Claim C8 (amended): `_clean_relationships` drops every candidate that is
not a mapping, every candidate whose stripped `from`/`to` is empty or whose
stripped `from` equals its stripped `to`, and every candidate whose
lowercased and stripped `type` is not in the allowed relationship set
(without defaulting it), and collapses candidates sharing the same
concatenated `from|type|to` key string (the source's
`f"{frm}|{rtype}|{to}"`) to the first occurrence — a collapse that can
also merge distinct `(from, type, to)` triples whose names contain a
pipe. -/
theorem claim_C8_amended_sanitizer_eq (rs : List RelItem) :
    clean_relationships rs = clean_relationships_spec rs :=
  clean_relationships_aux_eq rs []

/-- Claim C8, as stated, is false on the code in two ways.

First, a candidate whose raw `type` field (`"PART_OF"`) is not in the
allowed relationship set is kept rather than dropped, because the
membership test runs on the lowercased, stripped type.

Second, deduplication is by the concatenated `from|type|to` key string,
not by the `(from, type, to)` triple: the two candidates
`{from: "a|part_of", to: "b", type: "part_of"}` and
`{from: "a", to: "part_of|b", type: "part_of"}` have distinct triples but
the same key `"a|part_of|part_of|b"`, so the second — which the claim says
survives — is dropped. -/
theorem claim_C8_counterexample :
    ("PART_OF".data ∉ allowedRelTypes ∧
      clean_relationships
        [.mapping (some ("A".data)) (some ("B".data)) (some ("PART_OF".data))] =
        [⟨"A".data, "B".data, "part_of".data⟩]) ∧
    (("a|part_of".data, "part_of".data, "b".data) ≠
        ("a".data, "part_of".data, "part_of|b".data) ∧
      relKey ("a|part_of".data) ("part_of".data) ("b".data) =
        relKey ("a".data) ("part_of".data) ("part_of|b".data) ∧
      clean_relationships
        [.mapping (some ("a|part_of".data)) (some ("b".data)) (some ("part_of".data)),
         .mapping (some ("a".data)) (some ("part_of|b".data)) (some ("part_of".data))] =
        [⟨"a|part_of".data, "b".data, "part_of".data⟩]) := by
  refine ⟨⟨by decide, rfl⟩, ⟨by decide, rfl, ?_⟩⟩
  rfl

/-- Claim C10: a relationship candidate (passing the `from`/`to` validity
checks) whose `type` equals an allowed relationship type up to letter case
and surrounding whitespace is kept with the normalized (lowercased,
stripped) type; the allowed-set membership test runs only after that
normalization. -/
theorem claim_C10_normalized_type_kept (frm toE ty : PyStr)
    (h1 : pyStrip frm ≠ []) (h2 : pyStrip toE ≠ []) (h3 : pyStrip frm ≠ pyStrip toE)
    (h4 : pyStrip (pyLower ty) ∈ allowedRelTypes) :
    clean_relationships [.mapping (some frm) (some toE) (some ty)] =
      [⟨pyStrip frm, pyStrip toE, pyStrip (pyLower ty)⟩] := by
  simp [clean_relationships, clean_relationships_aux, h1, h2, h3, h4]

/-- Witness for claim C10 at the concrete candidate
`{"from": "A", "to": "B", "type": " Part_Of "}`. -/
theorem claim_C10_witness :
    clean_relationships
      [.mapping (some ("A".data)) (some ("B".data)) (some (" Part_Of ".data))] =
      [⟨"A".data, "B".data, "part_of".data⟩] :=
  claim_C10_normalized_type_kept ("A".data) ("B".data) (" Part_Of ".data)
    (by decide) (by decide) (by decide) (by decide)

/-! ## Extraction error handling (claim C2) -/

/-- A parse collaborator that always fails (any malformed completion). -/
def nullLoads : PyStr → Option (List EntItem × List RelItem) := fun _ => none

/-- Claim C2 is half right on the code.  When the completion call returns and
anything afterwards fails (JSON parse, shape access), the function returns
`([], [])` — the soft-failure half.  But when `llm.invoke` itself raises,
the `except` handler evaluates `response.content` with `response` unbound
and raises `NameError`: the exception does propagate to the caller.  This
theorem evaluates both paths at concrete failing inputs. -/
theorem claim_C2_invoke_failure_propagates :
    extract_entities_relationships nullLoads (.error ("ConnectionError".data)) =
      .error .nameError ∧
    extract_entities_relationships nullLoads (.ok ("this is not json".data)) =
      .ok ([], []) :=
  ⟨rfl, rfl⟩

/-! ## Workflow upload failure (claim C3) -/

/-- A text-extraction collaborator that yields no text — exactly what
`upload_handler.process_upload` returns on any failed extraction
(`("", "error")`). -/
def failUpload : PyStr → PyStr → PyStr → PyStr × PyStr := fun _ _ _ => ([], "error".data)

/-- An ingestion collaborator (never reached on this path). -/
def stubIngest : PyStr → PyStr → IngestResult := fun _ _ => ⟨0, 0, 0, true⟩

/-- A query collaborator (never reached on this path). -/
def stubQuery : PyStr → PyStr → QueryResult := fun _ _ => ⟨[], true⟩

/-- A visualization collaborator (never reached on this path). -/
def stubViz : PyStr → List Entity × List RelEdge := fun _ => ([], [])

/-- The initial state `run_agent` builds for an upload action. -/
def c3UploadState : AgentState :=
  { action := some ("upload".data), user_id := "student_1".data,
    file_data := some [], filename := some ("notes.xyz".data),
    extracted_text := none, file_type := none, processing_result := none,
    question := none, query_result := none, graph_data := none,
    errorMsg := none, success := false }

/-- Claim C3 is wrong about the code.  When the external text extraction
yields no text, `_upload` does set the error message — but the
`upload -> extract` edge is unconditional, and `_extract` then reads the
missing `extracted_text` key, so the run raises `KeyError` instead of
reaching `END` with `success = false`. -/
theorem claim_C3_upload_failure_raises :
    upload_node failUpload c3UploadState =
      .ok { c3UploadState with errorMsg := some ("Text extraction failed".data) } ∧
    run_workflow failUpload stubIngest stubQuery stubViz c3UploadState =
      .error (.keyError ("extracted_text".data)) :=
  ⟨rfl, rfl⟩

/-! ## Query short-circuit (claim C4) -/

/-- Claim C4: when the resolved graph context has no entities,
`generate_answer` returns the fixed not-found answer with
`success = false`, and neither the vector search nor the answer-synthesis
completion call is issued. -/
theorem claim_C4_short_circuit
    (extractConcept : PyStr → PyStr) (graphCtxOf : PyStr → GraphContext)
    (vectorSearchOf : PyStr → List VecResult)
    (synthAnswer : PyStr → StructuredContext → PyStr) (question : PyStr)
    (h : (graphCtxOf (extractConcept question)).entities = []) :
    query_generate_answer extractConcept graphCtxOf vectorSearchOf synthAnswer question =
      (⟨"I could not find this topic in your uploaded materials.".data, false⟩,
       [.llmConceptCall, .graphReadCall]) ∧
    QCall.vectorSearchCall ∉
      (query_generate_answer extractConcept graphCtxOf vectorSearchOf synthAnswer question).2 ∧
    QCall.llmAnswerCall ∉
      (query_generate_answer extractConcept graphCtxOf vectorSearchOf synthAnswer question).2 := by
  unfold query_generate_answer
  simp [h]

/-- Witness for claim C4 with concrete collaborators whose graph store is
empty: the call log stops after the concept extraction and the graph read. -/
theorem claim_C4_witness :
    query_generate_answer (fun q => q) (fun _ => ⟨[], []⟩) (fun _ => [])
      (fun _ _ => []) ("what is marketing mix".data) =
      (⟨"I could not find this topic in your uploaded materials.".data, false⟩,
       [.llmConceptCall, .graphReadCall]) :=
  (claim_C4_short_circuit (fun q => q) (fun _ => ⟨[], []⟩) (fun _ => [])
    (fun _ _ => []) ("what is marketing mix".data) rfl).1

/-! ## Ingestion frame effect (claim C9) -/

/-- Claim C9: a chunk whose extraction yields no entities and no
relationships contributes nothing — removing it from the chunk list leaves
both the returned counters (`processed_chunks`, `total_entities`,
`total_relationships`) and the entire store-write log unchanged. -/
theorem claim_C9_empty_extraction_frame
    (extractF : PyStr → List Entity × List RelEdge) (uid : PyStr)
    (pre post : List PyStr) (c : PyStr) (h : extractF c = ([], [])) :
    process_text_chunks extractF (pre ++ c :: post) uid =
      process_text_chunks extractF (pre ++ post) uid := by
  unfold process_text_chunks
  suffices h' : ∀ te tr p, process_chunks_loop extractF uid (pre ++ c :: post) te tr p =
      process_chunks_loop extractF uid (pre ++ post) te tr p by
    rw [h' 0 0 0]
  induction pre with
  | nil =>
    intro te tr p
    simp only [List.nil_append, process_chunks_loop]
    by_cases hc : pyStrip c = []
    · simp [hc]
    · simp [hc, h]
  | cons d rest ih =>
    intro te tr p
    simp only [List.cons_append, process_chunks_loop]
    by_cases hd : pyStrip d = []
    · simp only [hd, if_pos rfl]
      exact ih te tr p
    · simp only [if_neg hd]
      by_cases hw : (extractF d).1 ≠ [] ∨ (extractF d).2 ≠ []
      · simp only [if_pos hw, List.append_eq, ih]
      · simp only [if_neg hw, List.append_eq, ih]

/-- Witness for claim C9: the chunk `"empty"` extracts to nothing and leaves
the result and write log of the surrounding run unchanged. -/
theorem claim_C9_witness :
    process_text_chunks
      (fun c => if c = "empty".data then ([], []) else ([⟨"CRM".data, "concept".data⟩], []))
      (["a good chunk".data, "empty".data] ++ ["another chunk".data]) ("u1".data) =
    process_text_chunks
      (fun c => if c = "empty".data then ([], []) else ([⟨"CRM".data, "concept".data⟩], []))
      (["a good chunk".data] ++ ["another chunk".data]) ("u1".data) :=
  claim_C9_empty_extraction_frame _ ("u1".data) ["a good chunk".data]
    ["another chunk".data] ("empty".data) (by decide)

/-! ## Vector search ranking (claim C5) -/

/-- Claim C5: for every stored chunk list, similarity assignment and
`top_k`, `vector_search` returns at most `top_k` results, sorted in
descending order of similarity, none of which has similarity ≤ 0.10 — even
when the threshold leaves fewer than `top_k` results (the bounds are
unconditional). -/
theorem claim_C5_vector_search_ranking (chunks : List PyStr) (sims : List ℚ) (topK : Nat) :
    (vector_search chunks sims topK).length ≤ topK ∧
    List.Pairwise (fun a b : VecResult => b.similarity ≤ a.similarity)
      (vector_search chunks sims topK) ∧
    ∀ v ∈ vector_search chunks sims topK, (1 : ℚ)/10 < v.similarity := by
  unfold vector_search
  by_cases h : chunks = []
  · simp [h]
  · simp only [if_neg h]
    set r := fun i j : Nat => sims.getD i 0 ≤ sims.getD j 0 with hr
    have hTrans : IsTrans Nat r := ⟨fun a b c hab hbc => le_trans hab hbc⟩
    have hTotal : IsTotal Nat r := ⟨fun a b => le_total _ _⟩
    have hsorted : List.Sorted r (List.insertionSort r (List.range sims.length)) :=
      List.sorted_insertionSort r (List.range sims.length)
    have hrev : List.Pairwise (fun i j => r j i)
        (List.insertionSort r (List.range sims.length)).reverse := by
      rw [List.pairwise_reverse] at *
      exact hsorted
    have hsub : (((List.insertionSort r (List.range sims.length)).reverse.take topK).filter
        (fun i => (1 : ℚ)/10 < sims.getD i 0)).Sublist
        (List.insertionSort r (List.range sims.length)).reverse :=
      (List.filter_sublist _).trans (List.take_sublist _ _)
    refine ⟨?_, ?_, ?_⟩
    · rw [List.length_map]
      exact le_trans (List.length_filter_le _ _) (List.length_take_le _ _)
    · rw [List.pairwise_map]
      exact (hrev.sublist hsub).imp (fun hab => hab)
    · intro v hv
      simp only [List.mem_map, List.mem_filter] at hv
      obtain ⟨i, ⟨_, hgt⟩, rfl⟩ := hv
      simpa using hgt

/-! ## Chunker crash window (claim C7) -/

set_option maxRecDepth 100000 in
/-- Claim C7 describes the intended sentence-boundary break, but the code's
backward scan starts at `min(max_len + 200, len(text))`, which equals
`len(text)` — one past the last valid index — whenever the text is within
200 characters of the cut target, so `text[i]` raises `IndexError` there
instead of breaking the line.  Both the helper and `semantic_chunk` as a
whole raise on such input: a 250-character line with `max_chars = 200`
(target cut 100, so the scan starts at `text[250]`). -/
theorem claim_C7_window_crash :
    break_at_sentence_boundary (List.replicate 250 'a') 100 = none ∧
    semantic_chunk (List.replicate 250 'a') 200 = none := ⟨rfl, rfl⟩

/-! ## Chunk length bound (claim C1) -/

/-- A single 504-character line for `max_chars = 101`: 201 `b`s, a period,
then 302 `c`s. -/
def c1CexText : PyStr := List.replicate 201 'b' ++ '.' :: List.replicate 302 'c'

set_option maxRecDepth 100000 in
/-- Claim C1, as stated, is false on the code: the final pending-overflow
fragment is appended as a chunk without any length check, so a returned
chunk can exceed `max_chars + 200` (here a 302-character chunk against the
claimed bound of 301). -/
theorem claim_C1_counterexample :
    semantic_chunk c1CexText 101 =
      some [List.replicate 201 'b' ++ ['.'], List.replicate 302 'c'] ∧
    101 + 200 < (List.replicate 302 'c').length := by
  constructor
  · rfl
  · simp

/-! ## Chunk-size invariant (claim C1, amended) -/


/-- `pyStrip` is a left-strip followed by a right-strip. -/
theorem pyStrip_eq (s : PyStr) :
    pyStrip s = List.rdropWhile pyWsChar (List.dropWhile pyWsChar s) := rfl

/-- Stripping never lengthens a string. -/
theorem pyStrip_length (s : PyStr) : (pyStrip s).length ≤ s.length := by
  have h1 := (List.dropWhile_sublist (l := s) (p := pyWsChar)).length_le
  have h2 := (List.dropWhile_sublist (l := (s.dropWhile pyWsChar).reverse) (p := pyWsChar)).length_le
  simp only [pyStrip, List.length_reverse] at *
  omega

/-- Stripping is idempotent. -/
theorem pyStrip_idem (s : PyStr) : pyStrip (pyStrip s) = pyStrip s := by
  rw [pyStrip_eq, pyStrip_eq]
  have h1 : List.dropWhile pyWsChar (List.rdropWhile pyWsChar (List.dropWhile pyWsChar s)) =
      List.rdropWhile pyWsChar (List.dropWhile pyWsChar s) := by
    rw [List.dropWhile_eq_self_iff]
    intro h
    have hpre := List.rdropWhile_prefix pyWsChar (List.dropWhile pyWsChar s)
    have hlen : 0 < (List.dropWhile pyWsChar s).length :=
      Nat.lt_of_lt_of_le h hpre.length_le
    have h0 := List.dropWhile_get_zero_not pyWsChar s hlen
    have heq : (List.rdropWhile pyWsChar (List.dropWhile pyWsChar s))[0] =
        (List.dropWhile pyWsChar s)[0] := hpre.getElem h
    simpa [List.get_mk_zero, heq] using h0
  rw [h1, List.rdropWhile_idempotent]

/-- A recognized heading is at most 80 characters long once stripped. -/
theorem is_heading_length (line : PyStr) (h : is_heading line = true) :
    (pyStrip line).length ≤ 80 := by
  unfold is_heading at h
  by_cases h1 : pyStrip line = []
  · rw [if_pos h1] at h; cases h
  · rw [if_neg h1] at h
    by_cases h2 : 80 < (pyStrip line).length
    · rw [if_pos h2] at h; cases h
    · omega

/-- A terminator found by the backward scan lies at or below the start. -/
theorem scanBackSentAux_le (text : PyStr) (stop : Nat) :
    ∀ k j, scanBackSentAux text stop k = some (some j) → j ≤ stop + k := by
  intro k
  induction k with
  | zero => intro j h; simp [scanBackSentAux] at h
  | succ k ih =>
    intro j h
    unfold scanBackSentAux at h
    match hg : text[stop + k + 1]? with
    | none => rw [hg] at h; cases h
    | some c =>
      rw [hg] at h
      dsimp only at h
      by_cases hs : isSentEnd c = true
      · rw [if_pos hs] at h
        simp only [Option.some.injEq] at h
        omega
      · rw [if_neg hs] at h
        have := ih j h
        omega

/-- A space found by the backward scan lies at or below the start. -/
theorem scanBackSpaceAux_le (text : PyStr) (stop : Nat) :
    ∀ k j, scanBackSpaceAux text stop k = some (some j) → j ≤ stop + k := by
  intro k
  induction k with
  | zero => intro j h; simp [scanBackSpaceAux] at h
  | succ k ih =>
    intro j h
    unfold scanBackSpaceAux at h
    match hg : text[stop + k + 1]? with
    | none => rw [hg] at h; cases h
    | some c =>
      rw [hg] at h
      dsimp only at h
      by_cases hs : c = ' '
      · rw [if_pos hs] at h
        simp only [Option.some.injEq] at h
        omega
      · rw [if_neg hs] at h
        have := ih j h
        omega

/-- The first part returned by `break_at_sentence_boundary` is at most
`max_len + 201` characters (the scan window reaches `max_len + 200`, and
the cut keeps the terminator). -/
theorem break_first_length (text : PyStr) (maxLen : Nat) (f r : PyStr)
    (h : break_at_sentence_boundary text maxLen = some (f, r)) :
    f.length ≤ maxLen + 201 := by
  unfold break_at_sentence_boundary at h
  by_cases hlen : text.length ≤ maxLen
  · rw [if_pos hlen] at h
    simp only [Option.some.injEq, Prod.mk.injEq] at h
    obtain ⟨rfl, rfl⟩ := h
    omega
  · rw [if_neg hlen] at h
    match hs : scanBackSent text (min (maxLen + 200) text.length) (maxLen - 200) with
    | none => rw [hs] at h; cases h
    | some (some i) =>
      rw [hs] at h
      simp only [Option.some.injEq, Prod.mk.injEq] at h
      obtain ⟨rfl, rfl⟩ := h
      have hi : i ≤ (maxLen - 200) + (min (maxLen + 200) text.length - (maxLen - 200)) :=
        scanBackSentAux_le text (maxLen - 200) _ i hs
      have h1 := pyStrip_length (text.take (i + 1))
      have h2 : (text.take (i + 1)).length ≤ i + 1 := by
        simp [List.length_take]
      have h3 : min (maxLen + 200) text.length ≤ maxLen + 200 := min_le_left _ _
      omega
    | some none =>
      rw [hs] at h
      match hs2 : scanBackSpace text maxLen (maxLen - 100) with
      | none => rw [hs2] at h; cases h
      | some (some j) =>
        rw [hs2] at h
        simp only [Option.some.injEq, Prod.mk.injEq] at h
        obtain ⟨rfl, rfl⟩ := h
        have hj : j ≤ (maxLen - 100) + (maxLen - (maxLen - 100)) :=
          scanBackSpaceAux_le text (maxLen - 100) _ j hs2
        have h1 := pyStrip_length (text.take j)
        have h2 : (text.take j).length ≤ j := by simp [List.length_take]
        omega
      | some none =>
        rw [hs2] at h
        simp only [Option.some.injEq, Prod.mk.injEq] at h
        obtain ⟨rfl, rfl⟩ := h
        have h1 := pyStrip_length (text.take maxLen)
        have h2 : (text.take maxLen).length ≤ maxLen := by simp [List.length_take]
        omega

/-- A cut point found by the soft-buffer scan lies within the scanned
window: at least `stopEx - k + 1` for fuel `k`. -/
theorem softScanAux_lower (cc : PyStr) (stopEx : Int) :
    ∀ k bp, softScanAux cc stopEx k = some (some bp) → stopEx - k + 1 ≤ bp := by
  intro k
  induction k with
  | zero => intro bp h; simp [softScanAux] at h
  | succ k ih =>
    intro bp h
    unfold softScanAux at h
    match hg : pyGetI cc (stopEx - (k + 1 : Nat)) with
    | none => rw [hg] at h; cases h
    | some c =>
      rw [hg] at h
      dsimp only at h
      by_cases hs : isSentEnd c = true
      · rw [if_pos hs] at h
        simp only [Option.some.injEq] at h
        omega
      · rw [if_neg hs] at h
        have := ih bp h
        omega


/-- A tail slice at a cut point within the last 99 positions keeps at most
99 characters (Python negative-index semantics included). -/
theorem pySliceFrom_length_le (s : PyStr) (bp : Int)
    (hbp : (s.length : Int) - 99 ≤ bp) : (pySliceFrom s bp).length ≤ 99 := by
  unfold pySliceFrom pySliceIdx
  split
  · rename_i hneg
    simp only [List.length_drop]
    omega
  · rename_i hpos
    simp only [List.length_drop]
    omega

/-- The budget flush emits only bounded chunks. -/
theorem flushIfOver_chunks (maxChars : Nat) (st : CState) (line : PyStr)
    (hchunks : ∀ c ∈ st.chunks, c.length ≤ maxChars + 283)
    (hcc : st.cc.length ≤ maxChars + 182) :
    ∀ c ∈ (flushIfOver maxChars st line).1, c.length ≤ maxChars + 283 := by
  unfold flushIfOver
  split
  · intro c hc
    rcases List.mem_append.mp hc with hc1 | hc2
    · exact hchunks c hc1
    · rcases List.mem_singleton.mp hc2 with rfl
      exact le_trans (pyStrip_length _) (by omega)
  · exact hchunks

/-- The accumulating chunk stays bounded across the budget flush. -/
theorem flushIfOver_cc (maxChars : Nat) (st : CState) (line : PyStr)
    (hcc : st.cc.length ≤ maxChars + 182) (hhead : st.heading.length ≤ 80) :
    (flushIfOver maxChars st line).2.length ≤ maxChars + 182 := by
  unfold flushIfOver
  split
  · simp only [List.length_append, List.length_singleton]
    omega
  · exact hcc

/-- When the incoming line exceeds the budget, the accumulating chunk
after the flush step is at most `heading + newline` long: either it was
just flushed, or it was empty (the flush condition cannot fail otherwise,
since the over-long line forces the potential over budget). -/
theorem flushIfOver_cc_long (maxChars : Nat) (st : CState) (line : PyStr)
    (hhead : st.heading.length ≤ 80) (hlong : maxChars < line.length) :
    (flushIfOver maxChars st line).2.length ≤ 81 := by
  unfold flushIfOver
  split
  · simp only [List.length_append, List.length_singleton]
    omega
  · rename_i hn
    rw [not_and_or] at hn
    rcases hn with hn | hn
    · exfalso
      apply hn
      simp only [List.length_append, List.length_singleton]
      omega
    · simp only [ne_eq, not_not] at hn
      simp [hn]

/-- After appending a line that fits the budget, the accumulating chunk is
at most `maxChars + 82` long. -/
theorem flushIfOver_cc2 (maxChars : Nat) (st : CState) (line : PyStr)
    (hhead : st.heading.length ≤ 80) (hshort : line.length ≤ maxChars) :
    ((flushIfOver maxChars st line).2 ++ line ++ [' ']).length ≤ maxChars + 82 := by
  unfold flushIfOver
  split
  · simp only [List.length_append, List.length_singleton]
    omega
  · rename_i hn
    rw [not_and_or] at hn
    rcases hn with hn | hn
    · simp only [not_lt, List.length_append, List.length_singleton] at hn ⊢
      omega
    · simp only [ne_eq, not_not] at hn
      simp only [hn, List.length_append, List.length_nil, List.length_singleton]
      omega

/-- The long-line break step preserves the chunk bounds: the flushed chunk
is at most `cc + first + 1 <= 81 + (maxChars + 201) + 1 = maxChars + 283`
characters. -/
theorem longLineStep_inv (maxChars : Nat) (heading : PyStr) (chunks : List PyStr)
    (cc line : PyStr) (st' : CState)
    (hchunks : ∀ c ∈ chunks, c.length ≤ maxChars + 283)
    (hcc : cc.length ≤ 81) (hhead : heading.length ≤ 80)
    (h : longLineStep maxChars heading chunks cc line = some st') :
    (∀ c ∈ st'.chunks, c.length ≤ maxChars + 283) ∧
      st'.cc.length ≤ maxChars + 182 ∧ st'.heading.length ≤ 80 := by
  simp only [longLineStep] at h
  split at h
  · exact Option.noConfusion h
  · rename_i first rem hb
    have hfirst := break_first_length _ _ _ _ hb
    have hbudget : (if 0 < (maxChars : Int) - cc.length - 100 then
        ((maxChars : Int) - cc.length - 100).toNat else maxChars) ≤ maxChars := by
      split <;> omega
    cases h
    refine ⟨?_, ?_, hhead⟩
    · intro c hc
      rcases List.mem_append.mp hc with hc1 | hc2
      · exact hchunks c hc1
      · rcases List.mem_singleton.mp hc2 with rfl
        have h1 := pyStrip_length (cc ++ first ++ [' '])
        simp only [List.length_append, List.length_singleton] at h1
        omega
    · simp only [List.length_append, List.length_singleton]
      omega

/-- The soft-buffer step preserves the chunk bounds: a soft flush emits a
prefix of the accumulating chunk, and re-seeds it with the heading plus at
most the last 99 characters. -/
theorem softStep_inv (maxChars : Nat) (heading : PyStr) (chunks : List PyStr)
    (cc2 : PyStr) (st' : CState)
    (hchunks : ∀ c ∈ chunks, c.length ≤ maxChars + 283)
    (hcc2 : cc2.length ≤ maxChars + 82) (hhead : heading.length ≤ 80)
    (h : softStep maxChars heading chunks cc2 = some st') :
    (∀ c ∈ st'.chunks, c.length ≤ maxChars + 283) ∧
      st'.cc.length ≤ maxChars + 182 ∧ st'.heading.length ≤ 80 := by
  simp only [softStep] at h
  split at h
  · split at h
    · exact Option.noConfusion h
    · rename_i bp hscan
      unfold softScan at hscan
      have hk : ((cc2.length : Int) - ((cc2.length : Int) - 100)).toNat = 100 := by omega
      rw [hk] at hscan
      have hbp : (cc2.length : Int) - 100 + 1 ≤ bp := softScanAux_lower cc2 _ 100 bp hscan
      split at h
      · rename_i hlt
        cases h
        refine ⟨?_, ?_, hhead⟩
        · intro c hc
          rcases List.mem_append.mp hc with hc1 | hc2
          · exact hchunks c hc1
          · rcases List.mem_singleton.mp hc2 with rfl
            have h1 := pyStrip_length (pySliceTo cc2 bp)
            have h2 : (pySliceTo cc2 bp).length ≤ cc2.length := by
              simp [pySliceTo, List.length_take]
            omega
        · have hrem : (pySliceFrom cc2 bp).length ≤ 99 :=
            pySliceFrom_length_le cc2 bp (by omega)
          have hrs := pyStrip_length (pySliceFrom cc2 bp)
          split
          · simp only [List.length_append, List.length_singleton]
            omega
          · simp only [List.length_append, List.length_singleton]
            omega
      · cases h
        exact ⟨hchunks, (by omega : cc2.length ≤ maxChars + 182), hhead⟩
    · cases h
      exact ⟨hchunks, (by omega : cc2.length ≤ maxChars + 182), hhead⟩
  · cases h
    exact ⟨hchunks, (by omega : cc2.length ≤ maxChars + 182), hhead⟩

/-- One loop iteration of `semantic_chunk` preserves the chunk-size
invariant. -/
theorem procLine_inv (maxChars : Nat) (st st' : CState) (rawLine : PyStr)
    (hchunks : ∀ c ∈ st.chunks, c.length ≤ maxChars + 283)
    (hcc : st.cc.length ≤ maxChars + 182) (hhead : st.heading.length ≤ 80)
    (h : procLine maxChars st rawLine = some st') :
    (∀ c ∈ st'.chunks, c.length ≤ maxChars + 283) ∧
      st'.cc.length ≤ maxChars + 182 ∧ st'.heading.length ≤ 80 := by
  simp only [procLine] at h
  split at h
  · cases h
    exact ⟨hchunks, hcc, hhead⟩
  · split at h
    · rename_i hline hhd
      cases h
      refine ⟨?_, ?_, ?_⟩
      · intro c hc
        rcases List.mem_append.mp hc with hc1 | hc2
        · exact hchunks c hc1
        · split at hc2
          · rcases List.mem_singleton.mp hc2 with rfl
            exact le_trans (pyStrip_length _) (by omega)
          · cases hc2
      · have h80 : (pyStrip (pyStrip rawLine)).length ≤ 80 := is_heading_length _ hhd
        rw [pyStrip_idem] at h80
        simp only [List.length_append, List.length_singleton]
        omega
      · have h80 : (pyStrip (pyStrip rawLine)).length ≤ 80 := is_heading_length _ hhd
        rw [pyStrip_idem] at h80
        exact h80
    · split at h
      · rename_i hlong
        exact longLineStep_inv _ _ _ _ _ _
          (flushIfOver_chunks _ _ _ hchunks hcc)
          (flushIfOver_cc_long _ _ _ hhead hlong) hhead h
      · rename_i hshort
        exact softStep_inv _ _ _ _ _
          (flushIfOver_chunks _ _ _ hchunks hcc)
          (flushIfOver_cc2 _ _ _ hhead (by omega)) hhead h

/-- The whole line loop preserves the chunk-size invariant. -/
theorem chunkLoop_inv (maxChars : Nat) : ∀ (lines : List PyStr) (st st' : CState),
    (∀ c ∈ st.chunks, c.length ≤ maxChars + 283) →
    st.cc.length ≤ maxChars + 182 → st.heading.length ≤ 80 →
    lines.foldlM (procLine maxChars) st = some st' →
    (∀ c ∈ st'.chunks, c.length ≤ maxChars + 283) ∧
      st'.cc.length ≤ maxChars + 182 ∧ st'.heading.length ≤ 80 := by
  intro lines
  induction lines with
  | nil =>
    intro st st' h1 h2 h3 h
    cases h
    exact ⟨h1, h2, h3⟩
  | cons l rest ih =>
    intro st st' h1 h2 h3 h
    rw [List.foldlM_cons] at h
    match hp : procLine maxChars st l with
    | none => rw [hp] at h; cases h
    | some st1 =>
      rw [hp] at h
      obtain ⟨g1, g2, g3⟩ := procLine_inv maxChars st st1 l h1 h2 h3 hp
      exact ih st1 st' g1 g2 g3 h

/-- Dropping the last element of `A ++ B` with `B` at most a singleton
leaves only elements of `A`. -/
theorem mem_dropLast_append_short {α : Type} {A B : List α} (hB : B.length ≤ 1)
    {c : α} (hc : c ∈ (A ++ B).dropLast) : c ∈ A := by
  match B, hB with
  | [], _ =>
    rw [List.append_nil] at hc
    exact (List.dropLast_sublist A).subset hc
  | [b], _ =>
    rw [List.dropLast_concat] at hc
    exact hc

/-- Claim C1 (amended): on every run of `semantic_chunk` that returns
(rather than raising), every returned chunk except possibly the last one
has length at most `max_chars + 283`, and no returned chunk is empty or
whitespace-only.  The last chunk may be the final pending-overflow
fragment, which is appended without any length check (see the
counterexample), and the worst non-final chunk is the tiny-budget long-line
flush `heading + newline + (maxChars + 201) + space`. -/
theorem claim_C1_amended (text : PyStr) (maxChars : Nat) (cs : List PyStr)
    (h : semantic_chunk text maxChars = some cs) :
    (∀ c ∈ cs.dropLast, c.length ≤ maxChars + 283) ∧
    (∀ c ∈ cs, pyStrip c ≠ []) := by
  unfold semantic_chunk at h
  match hf : (splitNl text).foldlM (procLine maxChars) ⟨[], [], [], []⟩ with
  | none => rw [hf] at h; cases h
  | some st =>
    rw [hf] at h
    have h2 : some (List.filter (fun c => decide (pyStrip c ≠ []))
        ((st.chunks ++ (if pyStrip st.cc ≠ [] then [pyStrip st.cc] else [])) ++
          (if st.pending ≠ [] then [pyStrip (st.heading ++ [' '] ++ st.pending)] else []))) =
        some cs := h
    replace h := Option.some.inj h2
    clear h2
    obtain ⟨g1, g2, g3⟩ := chunkLoop_inv maxChars (splitNl text) ⟨[], [], [], []⟩ st
      (by intro c hc; cases hc) (by simp) (by simp) hf
    have hbase : ∀ c ∈ (st.chunks ++ (if pyStrip st.cc ≠ [] then [pyStrip st.cc] else [])),
        c.length ≤ maxChars + 283 := by
      intro c hc
      rcases List.mem_append.mp hc with hc1 | hc2
      · exact g1 c hc1
      · split at hc2
        · rcases List.mem_singleton.mp hc2 with rfl
          exact le_trans (pyStrip_length _) (by omega)
        · cases hc2
    constructor
    · intro c hc
      subst h
      rw [List.filter_append] at hc
      have hB : (List.filter (fun c => decide (pyStrip c ≠ []))
          (if st.pending ≠ [] then [pyStrip (st.heading ++ [' '] ++ st.pending)]
           else [])).length ≤ 1 := by
        refine le_trans (List.length_filter_le _ _) ?_
        split <;> simp
      have hcA := mem_dropLast_append_short hB hc
      exact hbase c (List.mem_of_mem_filter hcA)
    · intro c hc
      subst h
      have := List.of_mem_filter hc
      simpa using this

/-- Witness for the amended claim C1 at a concrete two-line input. -/
theorem claim_C1_amended_witness :
    semantic_chunk ("AB\ncd.".data) 600 = some [("AB\ncd.".data)] ∧
    ((∀ c ∈ ([("AB\ncd.".data)] : List PyStr).dropLast, c.length ≤ 600 + 283) ∧
      (∀ c ∈ ([("AB\ncd.".data)] : List PyStr), pyStrip c ≠ [])) :=
  ⟨rfl, claim_C1_amended ("AB\ncd.".data) 600 [("AB\ncd.".data)] rfl⟩
